import Mathlib

/-!
Shallow embedding of the matchmaking core of `src/server/src/index.js`
(stranger-chat-web): the `find` / `poll` / `next` / `leave` / `report`
WebSocket message handlers, the Redis-backed waiting list (`waiting:list`),
the per-identity match mailbox (`match:<id>`, SETEX/GETDEL), and the
in-process cooldown map (`nextCooldown`).

Conventions of the embedding:
* Times are naturals in milliseconds (`Date.now()`).
* The Bernoulli trial `Math.random() < MATCH_SAME_COUNTRY_BIAS` is an
  explicit boolean input `bias` to the handler.
* The fresh room suffix `uid.sync(8)` is an explicit string input `roomUid`.
* Redis structures are modelled by their documented semantics: the list by a
  Lean list (`LLEN` = length, `LRANGE 0 stop` = inclusive prefix,
  `RPUSH` = append, `LREM key 1 v` = remove first occurrence equal to `v`),
  and `SETEX`/`GETDEL` by an association list from key to expiry time and
  value, where a key is alive at instant `t` iff `t <` its expiry.
* `JSON.stringify` equality of two waiting entries built by this code is
  structural equality (the handler always serialises the same five fields in
  the same order).
-/

set_option maxHeartbeats 1000000

namespace StrangerChat

/-- A waiting-queue entry, as built by the `find` handler:
`{ id: ws.id, ts: Date.now(), tags: msg.tags.slice(0,5), lang: (msg.lang||'').slice(0,16), country }`. -/
structure WaitingEntry where
  id : String
  ts : Nat
  tags : List String
  lang : String
  country : Option String
deriving Repr, DecidableEq

/-- Model of an issued LiveKit access token: `createLiveKitToken({identity, room})`
is deterministic in the identity and the room (the JWT payload). -/
structure Token where
  identity : String
  room : String
deriving Repr, DecidableEq

/-- The value stored under `match:<peerId>`:
`{ room, token: tokenPeer, partner: { id: ws.id } }`. -/
structure MatchAssignment where
  room : String
  token : Token
  partnerId : String
deriving Repr, DecidableEq

/-- One event appended to the `reports` moderation stream. -/
structure ReportEvent where
  reason : String
  peerId : String
  room : String
  reporter : String
  ts : Nat
deriving Repr, DecidableEq

/-- Server-to-client protocol messages sent by the handlers. -/
inductive ServerMsg where
  | error (e : String)
  | cooldown (seconds : Nat)
  | matched (room : String) (token : Token) (partnerId : String)
  | queued
  | left
  | ok
deriving Repr, DecidableEq

/-- The match mailbox: key, absolute expiry instant (ms), stored assignment. -/
abbrev Mailbox := List (String × Nat × MatchAssignment)

/-- The in-process cooldown map `nextCooldown : Map clientId -> ts`. -/
abbrev CooldownMap := List (String × Nat)

/-- All shared server state the handlers touch. -/
structure ServerState where
  waiting : List WaitingEntry
  mailbox : Mailbox
  cooldown : CooldownMap
  reports : List ReportEvent
deriving Repr, DecidableEq

/-- Server configuration (`NEXT_COOLDOWN_SECONDS`, default 5). -/
structure Config where
  cooldownSeconds : Nat
deriving Repr, DecidableEq

def defaultConfig : Config := { cooldownSeconds := 5 }

/-- `nextCooldown.get(ws.id) || 0`. -/
def cdGet (m : CooldownMap) (id : String) : Nat :=
  match m.find? (fun e => decide (e.1 = id)) with
  | some e => e.2
  | none => 0

/-- `nextCooldown.set(ws.id, ts)`. -/
def cdSet (m : CooldownMap) (id : String) (ts : Nat) : CooldownMap :=
  (id, ts) :: m.filter (fun e => decide (e.1 ≠ id))

/-- Redis `SETEX key 60 value`: overwrite the key with the given absolute
expiry instant. -/
def mboxPut (m : Mailbox) (key : String) (expiry : Nat) (v : MatchAssignment) : Mailbox :=
  (key, expiry, v) :: m.filter (fun e => decide (e.1 ≠ key))

/-- Redis `GETDEL key` at instant `now`: return the value and delete the key;
an expired key (expiry ≤ now) behaves as absent. -/
def mboxGetdel (m : Mailbox) (key : String) (now : Nat) : Option MatchAssignment × Mailbox :=
  match m.find? (fun e => decide (e.1 = key)) with
  | some e =>
    if now < e.2.1 then (some e.2.2, m.filter (fun x => decide (x.1 ≠ key)))
    else (none, m.filter (fun x => decide (x.1 ≠ key)))
  | none => (none, m)

/-- Redis `LREM key 1 v`: remove the first occurrence equal to `v`. -/
def removeOne : List WaitingEntry → WaitingEntry → List WaitingEntry
  | [], _ => []
  | x :: xs, v => if x = v then xs else x :: removeOne xs v

/-- JavaScript `Array.prototype.findIndex`, returning `none` for -1. -/
def findIndex {α : Type} (p : α → Bool) : List α → Option Nat
  | [] => none
  | x :: xs => if p x then some 0 else (findIndex p xs).map (· + 1)

/-- `p.tags?.some(t => tags.has(t))` where `tags` is the set of the
requester's tags. -/
def overlap (reqTags : List String) (pTags : List String) : Bool :=
  pTags.any (fun t => decide (t ∈ reqTags))

/-- `!lang || !p.lang || p.lang === lang` (a JS string is falsy iff empty). -/
def langOK (reqLang pLang : String) : Bool :=
  decide (reqLang = "") || decide (pLang = "") || decide (pLang = reqLang)

/-- The body of the scan loop's guard: `overlap || langOK`. -/
def compatible (reqTags : List String) (reqLang : String) (p : WaitingEntry) : Bool :=
  overlap reqTags p.tags || langOK reqLang p.lang

/-- `countryBiasMatch(list, prefer)`: if the requester has a country and the
list holds a matching-country entry, take that index when the Bernoulli
trial succeeds, else index 0. -/
def countryBiasMatch (list : List WaitingEntry) (prefer : Option String) (bias : Bool) : Nat :=
  match prefer with
  | none => 0
  | some c =>
    match findIndex (fun x => decide (x.country = some c)) list with
    | none => 0
    | some idx => if bias then idx else 0

/-- The selection performed by the `find` handler on the pool snapshot:
`let idx = countryBiasMatch(parsed, country)` followed by the scan loop
`for (i...) if (overlap || langOK) { idx = i; break; }`. -/
def selectIdx (pool : List WaitingEntry) (reqTags : List String) (reqLang : String)
    (country : Option String) (bias : Bool) : Nat :=
  match findIndex (compatible reqTags reqLang) pool with
  | some i => i
  | none => countryBiasMatch pool country bias

/-- The entry built for the requester:
`{ id, ts, tags: Array.isArray(msg.tags) ? msg.tags.slice(0,5) : [], lang: (msg.lang||'').slice(0,16), country }`. -/
def mkEntry (wsId : String) (now : Nat) (msgTags : Option (List String))
    (msgLang : Option String) (country : Option String) : WaitingEntry :=
  { id := wsId, ts := now,
    tags := (msgTags.getD []).take 5,
    lang := (msgLang.getD "").take 16,
    country := country }

/-- `redis.lrange(waitingKey, 0, Math.min(50, len-1))`: LRANGE's stop index
is inclusive, so this reads the first `min 50 (len-1) + 1` entries. -/
def poolSnapshot (waiting : List WaitingEntry) : List WaitingEntry :=
  waiting.take (min 50 (waiting.length - 1) + 1)

/-- The matching branch of the `find` handler from the point the pool
snapshot has been read: run the selection, `LREM` the chosen entry, mint the
room and both tokens, notify the requester and deposit the peer's
`MatchAssignment` under `match:<chosen.id>` with a 60-second TTL.

`queueNow` is the waiting list as it stands when the `LREM` executes; in a
single process with no interference it equals the list the snapshot was read
from, but the handler awaits between `LRANGE` and `LREM`, so a concurrent
attempt may have removed entries in between.  Returns the new waiting list,
the new mailbox, and the messages sent to the requester. -/
def matchStep (queueNow snapshot : List WaitingEntry) (reqTags : List String)
    (reqLang : String) (country : Option String) (bias : Bool)
    (wsId : String) (now : Nat) (roomUid : String) (mbox : Mailbox) :
    List WaitingEntry × Mailbox × List ServerMsg :=
  let idx := selectIdx snapshot reqTags reqLang country bias
  match (match snapshot[idx]? with
         | some c => some c
         | none => snapshot[0]?) with
  | some chosen =>
    let waiting2 := removeOne queueNow chosen
    let room := "pair_" ++ roomUid
    let tokenSelf : Token := { identity := wsId, room := room }
    let tokenPeer : Token := { identity := chosen.id, room := room }
    let mbox2 := mboxPut mbox ("match:" ++ chosen.id) (now + 60000)
      { room := room, token := tokenPeer, partnerId := wsId }
    (waiting2, mbox2, [ServerMsg.matched room tokenSelf chosen.id])
  | none => (queueNow, mbox, [])

/-- The `find` handler after the CAPTCHA and cooldown gates: build the entry,
and either run a matching attempt against the non-empty queue or append the
entry and reply `queued`. -/
def findCore (st : ServerState) (wsId : String) (now : Nat)
    (msgTags : Option (List String)) (msgLang : Option String)
    (country : Option String) (bias : Bool) (roomUid : String) :
    ServerState × List ServerMsg :=
  let entry := mkEntry wsId now msgTags msgLang country
  if 0 < st.waiting.length then
    let snapshot := poolSnapshot st.waiting
    let r := matchStep st.waiting snapshot entry.tags entry.lang country bias wsId now roomUid st.mailbox
    ({ st with waiting := r.1, mailbox := r.2.1 }, r.2.2)
  else
    ({ st with waiting := st.waiting ++ [entry] }, [ServerMsg.queued])

/-- The `find` message handler: CAPTCHA gate, cooldown gate (reply
`cooldown{seconds: Math.ceil(remainingMs/1000)}` and stop), then the
matching attempt.  `captchaOK` is the awaited result of `verifyCaptcha`. -/
def handleFind (st : ServerState) (wsId : String) (now : Nat)
    (msgTags : Option (List String)) (msgLang : Option String)
    (captchaOK : Bool) (country : Option String) (bias : Bool)
    (roomUid : String) (cfg : Config) : ServerState × List ServerMsg :=
  if captchaOK = false then
    (st, [ServerMsg.error "captcha_failed"])
  else
    let last := cdGet st.cooldown wsId
    if now - last < cfg.cooldownSeconds * 1000 then
      (st, [ServerMsg.cooldown ((cfg.cooldownSeconds * 1000 - (now - last) + 999) / 1000)])
    else
      findCore st wsId now msgTags msgLang country bias roomUid

/-- The `poll` message handler: `GETDEL match:<ws.id>`; on a hit, send
`matched` with the stored payload. -/
def handlePoll (st : ServerState) (wsId : String) (now : Nat) :
    ServerState × List ServerMsg :=
  match mboxGetdel st.mailbox ("match:" ++ wsId) now with
  | (some a, mbox2) =>
    ({ st with mailbox := mbox2 }, [ServerMsg.matched a.room a.token a.partnerId])
  | (none, mbox2) => ({ st with mailbox := mbox2 }, [])

/-- The `next` message handler: mark cooldown, send `left`, then send a
(purely informational) `queued` message; the queue itself is untouched. -/
def handleNext (st : ServerState) (wsId : String) (now : Nat) :
    ServerState × List ServerMsg :=
  ({ st with cooldown := cdSet st.cooldown wsId now },
   [ServerMsg.left, ServerMsg.queued])

/-- The `leave` message handler: mark cooldown and send `left`. -/
def handleLeave (st : ServerState) (wsId : String) (now : Nat) :
    ServerState × List ServerMsg :=
  ({ st with cooldown := cdSet st.cooldown wsId now }, [ServerMsg.left])

/-- `reportSchema.validate({ ...msg, peerId: msg.peerId || '', room: ws.currentRoom || '' })`:
`reportSchema` is `Joi.object({reason, peerId, room})` with default options,
which reject any unknown key.  `extraKeys` lists the keys of the validated
object other than `reason`/`peerId`/`room` — the spread of the raw WebSocket
message always contributes at least `type` (the dispatch guard
`msg.type === 'report'`).  Validation succeeds iff there is no unknown key,
`reason` is a present non-empty string of at most 200 characters, and
`peerId` and `room` are non-empty strings. -/
def validReport (extraKeys : List String) (reason : Option String)
    (peerId room : String) : Bool :=
  decide (extraKeys = []) &&
    (match reason with
     | none => false
     | some r =>
       decide (r ≠ "") && decide (r.length ≤ 200) && decide (peerId ≠ "")
         && decide (room ≠ ""))

/-- The `report` message handler: validate the spread message (whose keys
beyond the schema's are `extraKeys`); on success append to the moderation
stream; in every case reply `ok`. -/
def handleReport (st : ServerState) (wsId : String) (now : Nat)
    (extraKeys : List String) (reason : Option String) (peerId : Option String)
    (currentRoom : Option String) : ServerState × List ServerMsg :=
  let pid := peerId.getD ""
  let room := currentRoom.getD ""
  if validReport extraKeys reason pid room then
    ({ st with reports := st.reports ++
        [{ reason := reason.getD "", peerId := pid, room := room, reporter := wsId, ts := now }] },
     [ServerMsg.ok])
  else
    (st, [ServerMsg.ok])

/-- Number of waiting entries carrying a given participant identity. -/
def idCount (l : List WaitingEntry) (i : String) : Nat :=
  (l.filter (fun e => decide (e.id = i))).length

/-- The queue invariant of the spec: each identity occurs at most once. -/
def atMostOnePerId (l : List WaitingEntry) : Prop :=
  ∀ i, idCount l i ≤ 1

section HelperLemmas

theorem findIndex_lt_length {α : Type} {p : α → Bool} {l : List α} {i : Nat}
    (h : findIndex p l = some i) : i < l.length := by
  induction l generalizing i with
  | nil => simp [findIndex] at h
  | cons x xs ih =>
    by_cases hx : p x
    · simp [findIndex, hx] at h
      simp [← h]
    · simp [findIndex, hx, Option.map_eq_some'] at h
      obtain ⟨j, hj, hji⟩ := h
      have := ih hj
      simp only [List.length_cons]
      omega

theorem findIndex_get {α : Type} {p : α → Bool} {l : List α} {i : Nat}
    (h : findIndex p l = some i) : ∃ x, l[i]? = some x ∧ p x = true := by
  induction l generalizing i with
  | nil => simp [findIndex] at h
  | cons x xs ih =>
    by_cases hx : p x
    · simp [findIndex, hx] at h
      exact ⟨x, by simp [← h], hx⟩
    · simp [findIndex, hx, Option.map_eq_some'] at h
      obtain ⟨j, hj, hji⟩ := h
      obtain ⟨y, hy, hpy⟩ := ih hj
      exact ⟨y, by simp [← hji, hy], hpy⟩

theorem findIndex_before {α : Type} {p : α → Bool} {l : List α} {i : Nat}
    (h : findIndex p l = some i) :
    ∀ k y, k < i → l[k]? = some y → p y = false := by
  induction l generalizing i with
  | nil => intro k y _ hky; simp at hky
  | cons x xs ih =>
    intro k y hk hky
    cases hx : p x with
    | true =>
      simp [findIndex, hx] at h
      omega
    | false =>
      simp [findIndex, hx, Option.map_eq_some'] at h
      obtain ⟨j, hj, hji⟩ := h
      cases k with
      | zero =>
        simp at hky
        rw [← hky]
        exact hx
      | succ k2 =>
        exact ih hj k2 y (by omega) (by simpa using hky)

theorem findIndex_some_le {α : Type} {p : α → Bool} {l : List α} {j : Nat} {y : α}
    (hj : l[j]? = some y) (hy : p y = true) :
    ∃ i, findIndex p l = some i ∧ i ≤ j := by
  induction l generalizing j with
  | nil => simp at hj
  | cons x xs ih =>
    cases hx : p x with
    | true => exact ⟨0, by simp [findIndex, hx], Nat.zero_le j⟩
    | false =>
      cases j with
      | zero =>
        simp at hj
        rw [hj, hy] at hx
        cases hx
      | succ j2 =>
        obtain ⟨i, hi, hij⟩ := ih (by simpa using hj)
        exact ⟨i + 1, by simp [findIndex, hx, hi], by omega⟩

theorem countryBiasMatch_lt (list : List WaitingEntry) (prefer : Option String)
    (bias : Bool) (h : list ≠ []) :
    countryBiasMatch list prefer bias < list.length := by
  have hlen : 0 < list.length := List.length_pos.mpr h
  cases prefer with
  | none => simpa [countryBiasMatch] using hlen
  | some c =>
    cases hfi : findIndex (fun x => decide (x.country = some c)) list with
    | none => simpa [countryBiasMatch, hfi] using hlen
    | some idx =>
      cases bias with
      | true => simpa [countryBiasMatch, hfi] using findIndex_lt_length hfi
      | false => simpa [countryBiasMatch, hfi] using hlen

theorem selectIdx_lt_length (pool : List WaitingEntry) (reqTags : List String)
    (reqLang : String) (country : Option String) (bias : Bool) (h : pool ≠ []) :
    selectIdx pool reqTags reqLang country bias < pool.length := by
  unfold selectIdx
  cases hfi : findIndex (compatible reqTags reqLang) pool with
  | some i => exact findIndex_lt_length hfi
  | none => exact countryBiasMatch_lt pool country bias h

theorem poolSnapshot_eq_take (q : List WaitingEntry) : poolSnapshot q = q.take 51 := by
  cases q with
  | nil => rfl
  | cons x xs =>
    show (x :: xs).take (min 50 ((x :: xs).length - 1) + 1) = (x :: xs).take 51
    have h : min 50 ((x :: xs).length - 1) + 1 = min 51 (x :: xs).length := by
      simp only [List.length_cons]
      omega
    rw [h, ← List.take_take, List.take_length]

theorem removeOne_subset {l : List WaitingEntry} {v : WaitingEntry} :
    ∀ x ∈ removeOne l v, x ∈ l := by
  induction l with
  | nil => simp [removeOne]
  | cons a as ih =>
    intro x hx
    by_cases hav : a = v
    · rw [show removeOne (a :: as) v = as by simp [removeOne, hav]] at hx
      exact List.mem_cons_of_mem a hx
    · rw [show removeOne (a :: as) v = a :: removeOne as v by simp [removeOne, hav]] at hx
      rcases List.mem_cons.mp hx with h | h
      · exact h ▸ List.mem_cons_self a as
      · exact List.mem_cons_of_mem a (ih x h)

theorem mem_removeOne_of_ne {l : List WaitingEntry} {v x : WaitingEntry}
    (hx : x ∈ l) (hne : x ≠ v) : x ∈ removeOne l v := by
  induction l with
  | nil => simp at hx
  | cons a as ih =>
    rcases List.mem_cons.mp hx with h | h
    · subst h
      simp [removeOne, hne]
    · by_cases hav : a = v
      · simpa [removeOne, hav] using h
      · rw [show removeOne (a :: as) v = a :: removeOne as v by simp [removeOne, hav]]
        exact List.mem_cons_of_mem a (ih h)

theorem removeOne_of_not_mem {l : List WaitingEntry} {v : WaitingEntry} (h : v ∉ l) :
    removeOne l v = l := by
  induction l with
  | nil => rfl
  | cons a as ih =>
    have hav : ¬(a = v) := fun he => h (he ▸ List.mem_cons_self a as)
    have has : v ∉ as := fun hm => h (List.mem_cons_of_mem a hm)
    simp [removeOne, hav, ih has]

theorem idCount_removeOne_le (l : List WaitingEntry) (v : WaitingEntry) (i : String) :
    idCount (removeOne l v) i ≤ idCount l i := by
  induction l with
  | nil => simp [removeOne]
  | cons a as ih =>
    by_cases hav : a = v
    · rw [show removeOne (a :: as) v = as by simp [removeOne, hav]]
      simp only [idCount, List.filter_cons]
      split
      · simp only [List.length_cons]
        omega
      · omega
    · rw [show removeOne (a :: as) v = a :: removeOne as v by simp [removeOne, hav]]
      simp only [idCount, List.filter_cons]
      split
      · simp only [List.length_cons]
        exact Nat.succ_le_succ ih
      · exact ih

theorem find?_filter_ne_eq_none {α : Type} (l : List (String × α)) (key : String) :
    (l.filter (fun x => decide (x.1 ≠ key))).find? (fun e => decide (e.1 = key)) = none := by
  induction l with
  | nil => rfl
  | cons a as ih =>
    by_cases ha : a.1 = key
    · simp [List.filter_cons, ha, ih]
    · simp [List.filter_cons, ha, List.find?, ih]

theorem cdGet_cdSet_same (m : CooldownMap) (id : String) (ts : Nat) :
    cdGet (cdSet m id ts) id = ts := by
  simp [cdGet, cdSet, List.find?]

theorem mboxGetdel_some_inv {m : Mailbox} {key : String} {now : Nat}
    {a : MatchAssignment} {m2 : Mailbox}
    (h : mboxGetdel m key now = (some a, m2)) :
    m2 = m.filter (fun x => decide (x.1 ≠ key)) := by
  unfold mboxGetdel at h
  split at h
  · split at h
    · simp only [Prod.mk.injEq, Option.some.injEq] at h
      exact h.2.symm
    · simp [Prod.ext_iff] at h
  · simp [Prod.ext_iff] at h

theorem mboxGetdel_after_some {m : Mailbox} {key : String} {now : Nat}
    {a : MatchAssignment} {m2 : Mailbox}
    (h : mboxGetdel m key now = (some a, m2)) :
    ∀ t, (mboxGetdel m2 key t).1 = none := by
  intro t
  rw [mboxGetdel_some_inv h]
  unfold mboxGetdel
  rw [find?_filter_ne_eq_none]

theorem mboxGetdel_put_live (m : Mailbox) (key : String) (exp2 : Nat)
    (v : MatchAssignment) (now : Nat) (h : now < exp2) :
    (mboxGetdel (mboxPut m key exp2 v) key now).1 = some v := by
  simp [mboxGetdel, mboxPut, List.find?, h]

theorem mboxGetdel_put_expired (m : Mailbox) (key : String) (exp2 : Nat)
    (v : MatchAssignment) (now : Nat) (h : exp2 ≤ now) :
    (mboxGetdel (mboxPut m key exp2 v) key now).1 = none := by
  simp [mboxGetdel, mboxPut, List.find?, Nat.not_lt.mpr h]

theorem matchStep_eq (queueNow snapshot : List WaitingEntry) (reqTags : List String)
    (reqLang : String) (country : Option String) (bias : Bool) (wsId : String)
    (now : Nat) (roomUid : String) (mbox : Mailbox) (chosen : WaitingEntry)
    (hch : snapshot[selectIdx snapshot reqTags reqLang country bias]? = some chosen) :
    matchStep queueNow snapshot reqTags reqLang country bias wsId now roomUid mbox
      = (removeOne queueNow chosen,
         mboxPut mbox ("match:" ++ chosen.id) (now + 60000)
           { room := "pair_" ++ roomUid,
             token := { identity := chosen.id, room := "pair_" ++ roomUid },
             partnerId := wsId },
         [ServerMsg.matched ("pair_" ++ roomUid)
           { identity := wsId, room := "pair_" ++ roomUid } chosen.id]) := by
  simp only [matchStep, hch]

theorem handleFind_pass (st : ServerState) (wsId : String) (now : Nat)
    (msgTags : Option (List String)) (msgLang : Option String) (country : Option String)
    (bias : Bool) (roomUid : String) (cfg : Config)
    (hcd : cfg.cooldownSeconds * 1000 ≤ now - cdGet st.cooldown wsId) :
    handleFind st wsId now msgTags msgLang true country bias roomUid cfg
      = findCore st wsId now msgTags msgLang country bias roomUid := by
  simp only [handleFind]
  rw [if_neg (by decide), if_neg (Nat.not_lt.mpr hcd)]

theorem findCore_empty (st : ServerState) (wsId : String) (now : Nat)
    (msgTags : Option (List String)) (msgLang : Option String) (country : Option String)
    (bias : Bool) (roomUid : String) (h : st.waiting = []) :
    findCore st wsId now msgTags msgLang country bias roomUid
      = ({ st with waiting := st.waiting ++ [mkEntry wsId now msgTags msgLang country] },
         [ServerMsg.queued]) := by
  simp only [findCore]
  rw [if_neg (by simp [h])]

theorem findCore_match_spec (st : ServerState) (wsId : String) (now : Nat)
    (msgTags : Option (List String)) (msgLang : Option String) (country : Option String)
    (bias : Bool) (roomUid : String) (h : st.waiting ≠ []) :
    ∃ chosen, chosen ∈ st.waiting
      ∧ (poolSnapshot st.waiting)[selectIdx (poolSnapshot st.waiting)
          ((msgTags.getD []).take 5) ((msgLang.getD "").take 16) country bias]? = some chosen
      ∧ findCore st wsId now msgTags msgLang country bias roomUid
        = ({ st with
             waiting := removeOne st.waiting chosen,
             mailbox := mboxPut st.mailbox ("match:" ++ chosen.id) (now + 60000)
               { room := "pair_" ++ roomUid,
                 token := { identity := chosen.id, room := "pair_" ++ roomUid },
                 partnerId := wsId } },
           [ServerMsg.matched ("pair_" ++ roomUid)
             { identity := wsId, room := "pair_" ++ roomUid } chosen.id]) := by
  have hsnap : poolSnapshot st.waiting ≠ [] := by
    rw [poolSnapshot_eq_take]
    simp [h]
  have hidx := selectIdx_lt_length (poolSnapshot st.waiting)
    ((msgTags.getD []).take 5) ((msgLang.getD "").take 16) country bias hsnap
  obtain ⟨chosen, hch⟩ : ∃ c, (poolSnapshot st.waiting)[selectIdx (poolSnapshot st.waiting)
      ((msgTags.getD []).take 5) ((msgLang.getD "").take 16) country bias]? = some c :=
    ⟨_, List.getElem?_eq_getElem hidx⟩
  refine ⟨chosen, ?_, hch, ?_⟩
  · have hmem : chosen ∈ poolSnapshot st.waiting := List.getElem?_mem hch
    rw [poolSnapshot_eq_take] at hmem
    exact List.take_subset _ _ hmem
  · simp only [findCore]
    rw [if_pos (List.length_pos.mpr h)]
    simp only [mkEntry]
    rw [matchStep_eq st.waiting (poolSnapshot st.waiting) _ _ country bias wsId now roomUid
      st.mailbox chosen hch]

theorem matchStep_events_only_snapshot (q1 q2 snapshot : List WaitingEntry)
    (reqTags : List String) (reqLang : String) (country : Option String) (bias : Bool)
    (wsId : String) (now : Nat) (roomUid : String) (m1 m2 : Mailbox) :
    (matchStep q1 snapshot reqTags reqLang country bias wsId now roomUid m1).2.2
      = (matchStep q2 snapshot reqTags reqLang country bias wsId now roomUid m2).2.2 := by
  simp only [matchStep]
  split <;> rfl

end HelperLemmas

/-- Sample entry: participant `b` waiting with tag `anime`, language `en`. -/
def eTagged : WaitingEntry :=
  { id := "b", ts := 0, tags := ["anime"], lang := "en", country := none }

/-- Sample entry: participant `b` waiting with tag `anime`, language `zz`. -/
def eZz : WaitingEntry :=
  { id := "b", ts := 0, tags := ["anime"], lang := "zz", country := none }

/-- Sample entry: participant `c` waiting with no tags and no language. -/
def eNoLang : WaitingEntry :=
  { id := "c", ts := 0, tags := [], lang := "", country := none }

/-- Sample entry: a stale entry of participant `a`. -/
def eOldA : WaitingEntry :=
  { id := "a", ts := 0, tags := [], lang := "", country := none }

/-- Sample match assignment. -/
def sampleAsg : MatchAssignment :=
  { room := "pair_u", token := { identity := "b", room := "pair_u" }, partnerId := "a" }

/-- Claim C1 is false as stated: in the pool `[eNoLang, eZz]` the first (and
only) entry sharing a tag with requester tags `["anime"]` sits at index 1,
yet the selection returns index 0 under either outcome of the country-bias
trial, because the scan's guard `overlap || langOK` also accepts the earlier
entry whose language is unset. -/
theorem C1_counterexample :
    overlap ["anime"] eZz.tags = true
    ∧ findIndex (fun q => overlap ["anime"] q.tags) [eNoLang, eZz] = some 1
    ∧ selectIdx [eNoLang, eZz] ["anime"] "en" none true = 0
    ∧ selectIdx [eNoLang, eZz] ["anime"] "en" none false = 0 := by
  decide

/-- Claim C1 (amended): for every pool containing a tag-sharing entry, the
selection returns, independently of the country-bias trial outcome, the index
of the first entry in pool order satisfying the scan guard — tag overlap OR
language unset on either side OR exact language match.  That index is at most
the index of any tag-sharing entry (so it equals the first tag-sharing index
exactly when no earlier entry is merely language-compatible). -/
theorem C1_scan_first_compatible (pool : List WaitingEntry) (reqTags : List String)
    (reqLang : String) (country : Option String) (b b2 : Bool) (j : Nat) (p : WaitingEntry)
    (hj : pool[j]? = some p) (hov : overlap reqTags p.tags = true) :
    ∃ i q, selectIdx pool reqTags reqLang country b = i
      ∧ selectIdx pool reqTags reqLang country b2 = i
      ∧ i ≤ j
      ∧ pool[i]? = some q ∧ compatible reqTags reqLang q = true
      ∧ ∀ k r2, k < i → pool[k]? = some r2 → compatible reqTags reqLang r2 = false := by
  have hcomp : compatible reqTags reqLang p = true := by
    simp [compatible, hov]
  obtain ⟨i, hfi, hij⟩ := findIndex_some_le hj hcomp
  obtain ⟨q, hq, hcq⟩ := findIndex_get hfi
  refine ⟨i, q, ?_, ?_, hij, hq, hcq, ?_⟩
  · simp [selectIdx, hfi]
  · simp [selectIdx, hfi]
  · intro k r2 hk hkr
    exact findIndex_before hfi k r2 hk hkr

/-- Witness for the amended C1 at the two-entry pool `[eNoLang, eZz]`. -/
theorem C1_witness :
    ∃ i q, selectIdx [eNoLang, eZz] ["anime"] "en" none true = i
      ∧ selectIdx [eNoLang, eZz] ["anime"] "en" none false = i
      ∧ i ≤ 1
      ∧ [eNoLang, eZz][i]? = some q ∧ compatible ["anime"] "en" q = true
      ∧ ∀ k r2, k < i → [eNoLang, eZz][k]? = some r2 →
          compatible ["anime"] "en" r2 = false :=
  C1_scan_first_compatible [eNoLang, eZz] ["anime"] "en" none true false 1 eZz
    (by decide) (by decide)

/-- Claim C2 is false on the code: with the selected entry already removed
from the queue (`LREM` removes nothing), the handler performs no retry and
still mints both tokens and deposits the stale assignment under the chosen
participant's mailbox key. -/
theorem C2_counterexample :
    eTagged ∉ ([] : List WaitingEntry)
    ∧ matchStep [] [eTagged] [] "" none false "a" 1000 "u" []
      = ([],
         [("match:b", 61000,
           { room := "pair_u", token := { identity := "b", room := "pair_u" },
             partnerId := "a" })],
         [ServerMsg.matched "pair_u" { identity := "a", room := "pair_u" } "b"]) := by
  decide

/-- Claim C2 (amended): within one matching attempt the queue removal is
attempted exactly once and its outcome is ignored.  When the selected entry
has already been removed by a concurrent attempt, the queue is left
unchanged, no retry against a fresh snapshot occurs, the requester is not
enqueued, and the credential and mailbox deposit for the stale partner are
issued anyway. -/
theorem C2_no_retry (queueNow snapshot : List WaitingEntry) (reqTags : List String)
    (reqLang : String) (country : Option String) (bias : Bool) (wsId : String)
    (now : Nat) (roomUid : String) (mbox : Mailbox) (chosen : WaitingEntry)
    (hch : snapshot[selectIdx snapshot reqTags reqLang country bias]? = some chosen)
    (hgone : chosen ∉ queueNow) :
    matchStep queueNow snapshot reqTags reqLang country bias wsId now roomUid mbox
      = (queueNow,
         mboxPut mbox ("match:" ++ chosen.id) (now + 60000)
           { room := "pair_" ++ roomUid,
             token := { identity := chosen.id, room := "pair_" ++ roomUid },
             partnerId := wsId },
         [ServerMsg.matched ("pair_" ++ roomUid)
           { identity := wsId, room := "pair_" ++ roomUid } chosen.id]) := by
  rw [matchStep_eq queueNow snapshot reqTags reqLang country bias wsId now roomUid
    mbox chosen hch, removeOne_of_not_mem hgone]

/-- Witness for the amended C2 at a concrete vanished entry. -/
theorem C2_witness :
    matchStep [] [eTagged] [] "" none false "a" 1000 "u" []
      = ([],
         mboxPut [] ("match:" ++ eTagged.id) (1000 + 60000)
           { room := "pair_" ++ "u",
             token := { identity := eTagged.id, room := "pair_" ++ "u" },
             partnerId := "a" },
         [ServerMsg.matched ("pair_" ++ "u")
           { identity := "a", room := "pair_" ++ "u" } eTagged.id]) :=
  C2_no_retry [] [eTagged] [] "" none false "a" 1000 "u" [] eTagged
    (by decide) (by decide)

/-- Claim C7 is false as stated: `LRANGE 0 (min 50 (len-1))` has an inclusive
stop index, so a queue of 52 entries yields a snapshot of 51 entries, one
more than the claimed bound of 50. -/
theorem C7_counterexample :
    (poolSnapshot (List.replicate 52 eTagged)).length = 51
    ∧ ¬ (poolSnapshot (List.replicate 52 eTagged)).length ≤ 50 := by
  decide

/-- Claim C7 (amended): per matching attempt at most the first 51 waiting
entries are read into the snapshot (the snapshot is exactly `take 51` of the
queue), and the messages the attempt emits depend only on that prefix of the
queue. -/
theorem C7_snapshot_take51 :
    (∀ q : List WaitingEntry, poolSnapshot q = q.take 51 ∧ (poolSnapshot q).length ≤ 51)
    ∧ (∀ (w1 w2 : List WaitingEntry) (mb1 mb2 : Mailbox) (cd : CooldownMap)
         (rp1 rp2 : List ReportEvent) (wsId : String) (now : Nat)
         (msgTags : Option (List String)) (msgLang : Option String)
         (country : Option String) (bias : Bool) (roomUid : String) (cfg : Config),
        w1.take 51 = w2.take 51 → w1 ≠ [] → w2 ≠ [] →
        (handleFind { waiting := w1, mailbox := mb1, cooldown := cd, reports := rp1 }
            wsId now msgTags msgLang true country bias roomUid cfg).2
          = (handleFind { waiting := w2, mailbox := mb2, cooldown := cd, reports := rp2 }
              wsId now msgTags msgLang true country bias roomUid cfg).2) := by
  constructor
  · intro q
    refine ⟨poolSnapshot_eq_take q, ?_⟩
    rw [poolSnapshot_eq_take]
    simp
  · intro w1 w2 mb1 mb2 cd rp1 rp2 wsId now msgTags msgLang country bias roomUid cfg
      htake h1 h2
    by_cases hc : now - cdGet cd wsId < cfg.cooldownSeconds * 1000
    · have hne : ¬(true = false) := by decide
      simp only [handleFind]
      rw [if_neg hne, if_neg hne, if_pos hc, if_pos hc]
    · have hge := Nat.le_of_not_lt hc
      rw [handleFind_pass _ _ _ _ _ _ _ _ _ hge, handleFind_pass _ _ _ _ _ _ _ _ _ hge]
      have hsnap : poolSnapshot w1 = poolSnapshot w2 := by
        rw [poolSnapshot_eq_take, poolSnapshot_eq_take, htake]
      simp only [findCore]
      rw [if_pos (List.length_pos.mpr h1), if_pos (List.length_pos.mpr h2), hsnap]
      exact matchStep_events_only_snapshot w1 w2 (poolSnapshot w2) _ _ country bias
        wsId now roomUid mb1 mb2

/-- Witness for the amended C7: snapshot shape at a singleton queue, and
event-equality across two states agreeing on the first 51 entries. -/
theorem C7_witness :
    (poolSnapshot [eTagged] = [eTagged].take 51 ∧ (poolSnapshot [eTagged]).length ≤ 51)
    ∧ (handleFind { waiting := [eTagged], mailbox := [], cooldown := [], reports := [] }
        "a" 10000 (some []) (some "") true none false "u" defaultConfig).2
      = (handleFind
          { waiting := [eTagged], mailbox := [("x", 1, sampleAsg)],
            cooldown := [], reports := [] }
          "a" 10000 (some []) (some "") true none false "u" defaultConfig).2 :=
  ⟨C7_snapshot_take51.1 [eTagged],
   C7_snapshot_take51.2 [eTagged] [eTagged] [] [("x", 1, sampleAsg)] [] [] []
     "a" 10000 (some []) (some "") none false "u" defaultConfig rfl
     (by decide) (by decide)⟩

/-- Claim C3 is false as stated: with queue `[eTagged, eOldA]` where `eOldA`
belongs to requester `a`, a second find from `a` does not replace the stale
entry.  The handler matches `a` against `eTagged` and leaves the old entry —
still carrying its original timestamp 0, not the new request's timestamp —
in the queue. -/
theorem C3_counterexample :
    (handleFind { waiting := [eTagged, eOldA], mailbox := [], cooldown := [], reports := [] }
        "a" 10000 (some ["anime"]) (some "en") true none false "u" defaultConfig).1.waiting
      = [eOldA]
    ∧ eOldA.id = "a" ∧ eOldA.ts = 0 ∧ (0 : Nat) ≠ 10000
    ∧ (handleFind { waiting := [eTagged, eOldA], mailbox := [], cooldown := [], reports := [] }
        "a" 10000 (some ["anime"]) (some "en") true none false "u" defaultConfig).2
      = [ServerMsg.matched "pair_u" { identity := "a", room := "pair_u" } "b"] := by
  decide

/-- Claim C3 (amended): the find handler never adds a duplicate entry while
any entry is queued (against a non-empty queue it only removes), and it
preserves the at-most-one-entry-per-identity invariant; but a requester's
stale entry is not replaced — it either stays in the queue untouched or is
itself consumed as the (self-)match. -/
theorem C3_no_duplicate (st : ServerState) (wsId : String) (now : Nat)
    (msgTags : Option (List String)) (msgLang : Option String) (country : Option String)
    (bias : Bool) (roomUid : String) (cfg : Config)
    (hcd : cfg.cooldownSeconds * 1000 ≤ now - cdGet st.cooldown wsId) :
    (st.waiting ≠ [] → ∀ e,
      e ∈ (handleFind st wsId now msgTags msgLang true country bias roomUid cfg).1.waiting →
      e ∈ st.waiting)
    ∧ (atMostOnePerId st.waiting →
      atMostOnePerId (handleFind st wsId now msgTags msgLang true country bias roomUid cfg).1.waiting)
    ∧ (∀ e, e ∈ st.waiting → e.id = wsId →
      e ∈ (handleFind st wsId now msgTags msgLang true country bias roomUid cfg).1.waiting
      ∨ ∃ room tok, ServerMsg.matched room tok wsId
          ∈ (handleFind st wsId now msgTags msgLang true country bias roomUid cfg).2) := by
  rw [handleFind_pass st wsId now msgTags msgLang country bias roomUid cfg hcd]
  by_cases h : st.waiting = []
  · rw [findCore_empty st wsId now msgTags msgLang country bias roomUid h]
    refine ⟨fun hne => absurd h hne, ?_, ?_⟩
    · intro _ i
      simp only [h, List.nil_append, idCount, List.filter_cons]
      split
      · simp
      · simp
    · intro e he
      rw [h] at he
      simp at he
  · obtain ⟨chosen, hmem, hch, heq⟩ :=
      findCore_match_spec st wsId now msgTags msgLang country bias roomUid h
    rw [heq]
    refine ⟨?_, ?_, ?_⟩
    · intro _ e he
      exact removeOne_subset e he
    · intro hmono i
      exact le_trans (idCount_removeOne_le st.waiting chosen i) (hmono i)
    · intro e he hid
      by_cases hec : e = chosen
      · right
        refine ⟨"pair_" ++ roomUid, { identity := wsId, room := "pair_" ++ roomUid }, ?_⟩
        subst hec
        rw [hid]
        simp
      · left
        exact mem_removeOne_of_ne he hec

/-- Witness for the amended C3: the stale entry of requester `a` either stays
queued or `a` was matched to itself — here it stays. -/
theorem C3_witness :
    eOldA ∈ (handleFind { waiting := [eTagged, eOldA], mailbox := [], cooldown := [], reports := [] }
        "a" 10000 (some ["anime"]) (some "en") true none false "u" defaultConfig).1.waiting
    ∨ ∃ room tok, ServerMsg.matched room tok "a"
        ∈ (handleFind { waiting := [eTagged, eOldA], mailbox := [], cooldown := [], reports := [] }
            "a" 10000 (some ["anime"]) (some "en") true none false "u" defaultConfig).2 :=
  (C3_no_duplicate { waiting := [eTagged, eOldA], mailbox := [], cooldown := [], reports := [] }
    "a" 10000 (some ["anime"]) (some "en") none false "u" defaultConfig (by decide)).2.2
    eOldA (by decide) rfl

/-- Claim C5: a find arriving while `now - lastMark < window` is answered with
a `cooldown` message carrying the remaining whole seconds (the ceiling of the
remaining milliseconds over 1000), the state is left completely unchanged (no
enqueue, cooldown mark untouched); a find arriving once the window has
elapsed is never answered with a `cooldown` message. -/
theorem C5_cooldown_gate (st : ServerState) (wsId : String) (now : Nat)
    (msgTags : Option (List String)) (msgLang : Option String) (country : Option String)
    (bias : Bool) (roomUid : String) (cfg : Config) :
    (now - cdGet st.cooldown wsId < cfg.cooldownSeconds * 1000 →
      handleFind st wsId now msgTags msgLang true country bias roomUid cfg
        = (st, [ServerMsg.cooldown
            ((cfg.cooldownSeconds * 1000 - (now - cdGet st.cooldown wsId) + 999) / 1000)])
      ∧ ((cfg.cooldownSeconds * 1000 - (now - cdGet st.cooldown wsId) + 999) / 1000 - 1) * 1000
          < cfg.cooldownSeconds * 1000 - (now - cdGet st.cooldown wsId)
      ∧ cfg.cooldownSeconds * 1000 - (now - cdGet st.cooldown wsId)
          ≤ ((cfg.cooldownSeconds * 1000 - (now - cdGet st.cooldown wsId) + 999) / 1000) * 1000)
    ∧ (cfg.cooldownSeconds * 1000 ≤ now - cdGet st.cooldown wsId →
      ∀ s, ServerMsg.cooldown s
        ∉ (handleFind st wsId now msgTags msgLang true country bias roomUid cfg).2) := by
  constructor
  · intro hlt
    refine ⟨?_, ?_, ?_⟩
    · simp only [handleFind]
      rw [if_neg (by decide), if_pos hlt]
    · have hd := Nat.div_add_mod
        (cfg.cooldownSeconds * 1000 - (now - cdGet st.cooldown wsId) + 999) 1000
      have hm : (cfg.cooldownSeconds * 1000 - (now - cdGet st.cooldown wsId) + 999) % 1000
          < 1000 := Nat.mod_lt _ (by norm_num)
      omega
    · have hd := Nat.div_add_mod
        (cfg.cooldownSeconds * 1000 - (now - cdGet st.cooldown wsId) + 999) 1000
      have hm : (cfg.cooldownSeconds * 1000 - (now - cdGet st.cooldown wsId) + 999) % 1000
          < 1000 := Nat.mod_lt _ (by norm_num)
      omega
  · intro hge s
    rw [handleFind_pass st wsId now msgTags msgLang country bias roomUid cfg hge]
    by_cases h : st.waiting = []
    · rw [findCore_empty st wsId now msgTags msgLang country bias roomUid h]
      simp
    · obtain ⟨chosen, _, _, heq⟩ :=
        findCore_match_spec st wsId now msgTags msgLang country bias roomUid h
      rw [heq]
      simp

/-- Witness for C5: a mark at 9000 and a find at 10000 under the default
5-second window is rejected with 4 whole seconds remaining and the state is
returned unchanged. -/
theorem C5_witness :
    handleFind { waiting := [], mailbox := [], cooldown := [("a", 9000)], reports := [] }
        "a" 10000 (some []) (some "") true none false "u" defaultConfig
      = ({ waiting := [], mailbox := [], cooldown := [("a", 9000)], reports := [] },
         [ServerMsg.cooldown 4]) :=
  ((C5_cooldown_gate { waiting := [], mailbox := [], cooldown := [("a", 9000)], reports := [] }
    "a" 10000 (some []) (some "") none false "u" defaultConfig).1 (by decide)).1

/-- Claim C6: partner selection is total — whenever the queue is non-empty the
attempt emits a `matched` message for some entry of the queue, and exactly
when the queue is empty it emits `queued` and appends the requester's fresh
entry. -/
theorem C6_totality (st : ServerState) (wsId : String) (now : Nat)
    (msgTags : Option (List String)) (msgLang : Option String) (country : Option String)
    (bias : Bool) (roomUid : String) (cfg : Config)
    (hcd : cfg.cooldownSeconds * 1000 ≤ now - cdGet st.cooldown wsId) :
    (st.waiting ≠ [] → ∃ chosen, chosen ∈ st.waiting
      ∧ (handleFind st wsId now msgTags msgLang true country bias roomUid cfg).2
        = [ServerMsg.matched ("pair_" ++ roomUid)
            { identity := wsId, room := "pair_" ++ roomUid } chosen.id])
    ∧ (st.waiting = [] →
      (handleFind st wsId now msgTags msgLang true country bias roomUid cfg).2
        = [ServerMsg.queued]
      ∧ (handleFind st wsId now msgTags msgLang true country bias roomUid cfg).1.waiting
        = [mkEntry wsId now msgTags msgLang country]) := by
  rw [handleFind_pass st wsId now msgTags msgLang country bias roomUid cfg hcd]
  constructor
  · intro h
    obtain ⟨chosen, hmem, hch, heq⟩ :=
      findCore_match_spec st wsId now msgTags msgLang country bias roomUid h
    exact ⟨chosen, hmem, by rw [heq]⟩
  · intro h
    rw [findCore_empty st wsId now msgTags msgLang country bias roomUid h]
    exact ⟨rfl, by simp [h]⟩

/-- Witness for C6: both branches at concrete states. -/
theorem C6_witness :
    (∃ chosen, chosen ∈ [eTagged]
      ∧ (handleFind { waiting := [eTagged], mailbox := [], cooldown := [], reports := [] }
          "a" 10000 (some []) (some "") true none false "u" defaultConfig).2
        = [ServerMsg.matched ("pair_" ++ "u")
            { identity := "a", room := "pair_" ++ "u" } chosen.id])
    ∧ ((handleFind { waiting := [], mailbox := [], cooldown := [], reports := [] }
          "a" 10000 (some []) (some "") true none false "u" defaultConfig).2
        = [ServerMsg.queued]
      ∧ (handleFind { waiting := [], mailbox := [], cooldown := [], reports := [] }
          "a" 10000 (some []) (some "") true none false "u" defaultConfig).1.waiting
        = [mkEntry "a" 10000 (some []) (some "") none]) :=
  ⟨(C6_totality { waiting := [eTagged], mailbox := [], cooldown := [], reports := [] }
      "a" 10000 (some []) (some "") none false "u" defaultConfig (by decide)).1 (by decide),
   (C6_totality { waiting := [], mailbox := [], cooldown := [], reports := [] }
      "a" 10000 (some []) (some "") none false "u" defaultConfig (by decide)).2 rfl⟩

theorem handlePoll_after_matched (st : ServerState) (wsId : String) (now : Nat)
    (st2 : ServerState) (r : String) (tok : Token) (p : String)
    (h : handlePoll st wsId now = (st2, [ServerMsg.matched r tok p])) :
    ∀ t, (handlePoll st2 wsId t).2 = [] := by
  intro t
  unfold handlePoll at h
  cases hg : mboxGetdel st.mailbox ("match:" ++ wsId) now with
  | mk o m2 =>
    rw [hg] at h
    cases o with
    | none => simp at h
    | some a =>
      have hmb : st2.mailbox = m2 := by
        have h1 := congrArg (fun x => x.1.mailbox) h
        simp at h1
        exact h1.symm
      have hnone := mboxGetdel_after_some hg
      unfold handlePoll
      cases hg2 : mboxGetdel st2.mailbox ("match:" ++ wsId) t with
      | mk o2 m3 =>
        have ho2 : o2 = none := by
          have := hnone t
          rw [← hmb, hg2] at this
          exact this
        subst ho2
        rfl

/-- Claim C4: a deposited MatchAssignment carries a 60-second TTL and is
delivered at most once.  `GETDEL` is read-and-clear: after it returns the
assignment, every later `GETDEL` for that key returns none until a new
deposit; a deposit read before its expiry is returned, one read at or after
its expiry is gone; a `poll` that delivered a `matched` message leaves every
later `poll` for that identity silent; and the find handler's deposit for the
matched peer expires exactly 60000 ms after deposit time. -/
theorem C4_mailbox_exactly_once :
    (∀ (m : Mailbox) (key : String) (now : Nat) (a : MatchAssignment) (m2 : Mailbox),
      mboxGetdel m key now = (some a, m2) → ∀ t, (mboxGetdel m2 key t).1 = none)
    ∧ (∀ (m : Mailbox) (key : String) (exp2 : Nat) (v : MatchAssignment) (now : Nat),
      now < exp2 → (mboxGetdel (mboxPut m key exp2 v) key now).1 = some v)
    ∧ (∀ (m : Mailbox) (key : String) (exp2 : Nat) (v : MatchAssignment) (now : Nat),
      exp2 ≤ now → (mboxGetdel (mboxPut m key exp2 v) key now).1 = none)
    ∧ (∀ (st : ServerState) (wsId : String) (now : Nat) (st2 : ServerState)
         (r : String) (tok : Token) (p : String),
      handlePoll st wsId now = (st2, [ServerMsg.matched r tok p]) →
      ∀ t, (handlePoll st2 wsId t).2 = [])
    ∧ (∀ (st : ServerState) (wsId : String) (now : Nat) (msgTags : Option (List String))
         (msgLang : Option String) (country : Option String) (bias : Bool)
         (roomUid : String) (cfg : Config),
      cfg.cooldownSeconds * 1000 ≤ now - cdGet st.cooldown wsId → st.waiting ≠ [] →
      ∃ pid a, (handleFind st wsId now msgTags msgLang true country bias roomUid cfg).1.mailbox
        = mboxPut st.mailbox ("match:" ++ pid) (now + 60000) a) := by
  refine ⟨fun m key now a m2 h => mboxGetdel_after_some h,
    fun m key exp2 v now h => mboxGetdel_put_live m key exp2 v now h,
    fun m key exp2 v now h => mboxGetdel_put_expired m key exp2 v now h,
    handlePoll_after_matched, ?_⟩
  intro st wsId now msgTags msgLang country bias roomUid cfg hcd hne
  obtain ⟨chosen, hmem, hch, heq⟩ :=
    findCore_match_spec st wsId now msgTags msgLang country bias roomUid hne
  rw [handleFind_pass st wsId now msgTags msgLang country bias roomUid cfg hcd, heq]
  exact ⟨chosen.id, _, rfl⟩

/-- Witness for C4 at concrete mailboxes: a live read returns the value, the
read-and-clear leaves nothing, and an expired read returns none. -/
theorem C4_witness :
    (mboxGetdel (mboxPut [] "match:b" 61000 sampleAsg) "match:b" 1000).1 = some sampleAsg
    ∧ (mboxGetdel (mboxPut [] "match:b" 61000 sampleAsg) "match:b" 61000).1 = none
    ∧ ∀ t, (mboxGetdel [] "match:b" t).1 = none :=
  ⟨C4_mailbox_exactly_once.2.1 [] "match:b" 61000 sampleAsg 1000 (by decide),
   C4_mailbox_exactly_once.2.2.1 [] "match:b" 61000 sampleAsg 61000 (by decide),
   C4_mailbox_exactly_once.1 [("match:b", 61000, sampleAsg)] "match:b" 1000 sampleAsg []
     (by decide)⟩

/-- Claim C8: on every `next`, in any state, the server marks the
participant's cooldown to the current instant and emits `left`; it leaves the
waiting queue and the mailbox untouched (no enqueue, no matching attempt, no
`matched` message).  The handler additionally sends a purely informational
`queued` message without enqueuing anything. -/
theorem C8_next_marks_cooldown (st : ServerState) (wsId : String) (now : Nat) :
    cdGet (handleNext st wsId now).1.cooldown wsId = now
    ∧ ServerMsg.left ∈ (handleNext st wsId now).2
    ∧ (handleNext st wsId now).1.waiting = st.waiting
    ∧ (handleNext st wsId now).1.mailbox = st.mailbox
    ∧ (handleNext st wsId now).1.reports = st.reports
    ∧ (handleNext st wsId now).2 = [ServerMsg.left, ServerMsg.queued]
    ∧ ∀ room tok pid, ServerMsg.matched room tok pid ∉ (handleNext st wsId now).2 := by
  refine ⟨?_, ?_, rfl, rfl, rfl, rfl, ?_⟩
  · exact cdGet_cdSet_same st.cooldown wsId now
  · simp [handleNext]
  · intro room tok pid
    simp [handleNext]

/-- Witness for C8 at a concrete state. -/
theorem C8_witness :
    cdGet (handleNext { waiting := [], mailbox := [], cooldown := [], reports := [] }
        "a" 7).1.cooldown "a" = 7
    ∧ ServerMsg.left ∈ (handleNext { waiting := [], mailbox := [], cooldown := [], reports := [] }
        "a" 7).2 :=
  ⟨(C8_next_marks_cooldown { waiting := [], mailbox := [], cooldown := [], reports := [] }
      "a" 7).1,
   (C8_next_marks_cooldown { waiting := [], mailbox := [], cooldown := [], reports := [] }
      "a" 7).2.1⟩

/-- Claim C9: the pool snapshot is never filtered by the requester's own
identity — when the requester's own stale entry is the sole waiting entry, a
second find selects it, removes it, and issues the match with requester and
partner being the same identity, with both tokens minted for it and the
mailbox deposit keyed to the requester's own identity. -/
theorem C9_self_match (st : ServerState) (wsId : String) (now : Nat)
    (msgTags : Option (List String)) (msgLang : Option String) (country : Option String)
    (bias : Bool) (roomUid : String) (cfg : Config) (e : WaitingEntry)
    (hcd : cfg.cooldownSeconds * 1000 ≤ now - cdGet st.cooldown wsId)
    (hw : st.waiting = [e]) (hid : e.id = wsId) :
    handleFind st wsId now msgTags msgLang true country bias roomUid cfg
      = ({ st with
           waiting := [],
           mailbox := mboxPut st.mailbox ("match:" ++ wsId) (now + 60000)
             { room := "pair_" ++ roomUid,
               token := { identity := wsId, room := "pair_" ++ roomUid },
               partnerId := wsId } },
         [ServerMsg.matched ("pair_" ++ roomUid)
           { identity := wsId, room := "pair_" ++ roomUid } wsId]) := by
  rw [handleFind_pass st wsId now msgTags msgLang country bias roomUid cfg hcd]
  have hne : st.waiting ≠ [] := by rw [hw]; simp
  obtain ⟨chosen, hmem, hch, heq⟩ :=
    findCore_match_spec st wsId now msgTags msgLang country bias roomUid hne
  have hce : chosen = e := by
    rw [hw] at hmem
    simpa using hmem
  subst hce
  rw [heq, hw]
  rw [show removeOne [chosen] chosen = [] from by simp [removeOne]]
  rw [hid]

/-- Witness for C9: requester `a` is matched to its own stale entry. -/
theorem C9_witness :
    handleFind { waiting := [eOldA], mailbox := [], cooldown := [], reports := [] }
        "a" 10000 (some []) (some "") true none false "u" defaultConfig
      = ({ waiting := [],
           mailbox := mboxPut [] ("match:" ++ "a") (10000 + 60000)
             { room := "pair_" ++ "u",
               token := { identity := "a", room := "pair_" ++ "u" },
               partnerId := "a" },
           cooldown := [], reports := [] },
         [ServerMsg.matched ("pair_" ++ "u")
           { identity := "a", room := "pair_" ++ "u" } "a"]) :=
  C9_self_match { waiting := [eOldA], mailbox := [], cooldown := [], reports := [] }
    "a" 10000 (some []) (some "") none false "u" defaultConfig eOldA
    (by decide) rfl rfl

/-- Claim C10: every `report` over the control connection is answered with
exactly `ok` and leaves the queue, the mailbox and the cooldown map
unchanged; when validation fails nothing is appended to the moderation log,
and the reply is the same `ok` either way, so the reporter cannot observe
the difference.  Moreover the validated object spreads the raw message,
which for every message the WebSocket dispatch routes here carries the
schema-unknown key `type`, so validation always fails and the append branch
is dead code for control-connection reports. -/
theorem C10_report_always_ok (st : ServerState) (wsId : String) (now : Nat)
    (extraKeys : List String) (reason : Option String) (peerId : Option String)
    (currentRoom : Option String) :
    (handleReport st wsId now extraKeys reason peerId currentRoom).2 = [ServerMsg.ok]
    ∧ (handleReport st wsId now extraKeys reason peerId currentRoom).1.waiting = st.waiting
    ∧ (handleReport st wsId now extraKeys reason peerId currentRoom).1.mailbox = st.mailbox
    ∧ (handleReport st wsId now extraKeys reason peerId currentRoom).1.cooldown = st.cooldown
    ∧ (validReport extraKeys reason (peerId.getD "") (currentRoom.getD "") = false →
      (handleReport st wsId now extraKeys reason peerId currentRoom).1.reports = st.reports)
    ∧ ("type" ∈ extraKeys →
      validReport extraKeys reason (peerId.getD "") (currentRoom.getD "") = false
      ∧ (handleReport st wsId now extraKeys reason peerId currentRoom).1.reports
          = st.reports) := by
  have hfail : "type" ∈ extraKeys →
      validReport extraKeys reason (peerId.getD "") (currentRoom.getD "") = false := by
    intro hmem
    have hne : extraKeys ≠ [] := by
      intro he
      rw [he] at hmem
      simp at hmem
    simp [validReport, hne]
  cases h : validReport extraKeys reason (peerId.getD "") (currentRoom.getD "") with
  | true =>
    refine ⟨by simp [handleReport, h], by simp [handleReport, h], by simp [handleReport, h],
      by simp [handleReport, h], by simp [h], ?_⟩
    intro hmem
    rw [hfail hmem] at h
    simp at h
  | false =>
    refine ⟨by simp [handleReport, h], by simp [handleReport, h], by simp [handleReport, h],
      by simp [handleReport, h], fun _ => by simp [handleReport, h], ?_⟩
    intro hmem
    exact ⟨rfl, by simp [handleReport, h]⟩

/-- Witness for C10: a report whose fields would satisfy the schema still
fails validation because the spread message carries the key `type`; nothing
is appended and the reply is `ok`. -/
theorem C10_witness :
    (handleReport { waiting := [], mailbox := [], cooldown := [], reports := [] }
        "a" 5 ["type"] (some "abuse") (some "b") (some "r")).2 = [ServerMsg.ok]
    ∧ validReport ["type"] (some "abuse") "b" "r" = false
    ∧ (handleReport { waiting := [], mailbox := [], cooldown := [], reports := [] }
        "a" 5 ["type"] (some "abuse") (some "b") (some "r")).1.reports = [] :=
  ⟨(C10_report_always_ok { waiting := [], mailbox := [], cooldown := [], reports := [] }
      "a" 5 ["type"] (some "abuse") (some "b") (some "r")).1,
   ((C10_report_always_ok { waiting := [], mailbox := [], cooldown := [], reports := [] }
      "a" 5 ["type"] (some "abuse") (some "b") (some "r")).2.2.2.2.2 (by decide)).1,
   ((C10_report_always_ok { waiting := [], mailbox := [], cooldown := [], reports := [] }
      "a" 5 ["type"] (some "abuse") (some "b") (some "r")).2.2.2.2.2 (by decide)).2⟩

end StrangerChat
